import Mathlib

/-!
# Verification of the option-valuation streamer (`option_value.py`)

Shallow embedding of the Black–Scholes pricing functions, the three
market-data resolvers and the per-cycle valuation loop of
`src/option_value.py`, together with proofs settling the specification
claims about them.

Python floats are modelled as real numbers; a Python function that can
raise an uncaught exception is modelled as returning `PyResult`, whose
`exn` constructor carries the Python exception class name.
-/

open MeasureTheory Set

namespace OptionValue

/-- Outcome of calling a Python function: a normally returned value, or an
uncaught exception carrying the name of its Python class. -/
inductive PyResult (α : Type) where
  | ok (v : α)
  | exn (e : String)

/-- Propagating an exception through a pure continuation, as Python does. -/
def PyResult.map {α β : Type} (f : α → β) : PyResult α → PyResult β
  | .ok v => .ok (f v)
  | .exn e => .exn e

/-- `R_DEFAULT = 0.05` — fallback risk-free rate (source line 16). -/
def R_DEFAULT : ℝ := 0.05

/-- `SIGMA_DEFAULT = 0.25` — fallback implied volatility (source line 17). -/
def SIGMA_DEFAULT : ℝ := 0.25

/-- `SHARES_PER_CONTRACT = 100` (source line 18). -/
def SHARES_PER_CONTRACT : ℝ := 100

/-! ## The standard normal distribution

The source computes `NormalDist(mu=0, sigma=1).cdf(x)`; we embed it as the
integral of the standard normal density over `(-∞, x]`. -/

/-- Density of the standard normal distribution. -/
noncomputable def stdNormalPDF (x : ℝ) : ℝ :=
  (Real.sqrt (2 * Real.pi))⁻¹ * Real.exp (-x ^ 2 / 2)

/-- `phi x` — the standard normal CDF, the model of the inner helper
`phi(x) = NormalDist(mu=0, sigma=1).cdf(x)` of `call_value`/`put_value`. -/
noncomputable def phi (x : ℝ) : ℝ := ∫ t in Iic x, stdNormalPDF t

/-! ## Black–Scholes pricing (source lines 23–41)

`call_value(S, K, r, sigma, T)` and `put_value(S, K, r, sigma, T)` return the
intrinsic value when `T <= 0`; otherwise they evaluate the closed form.  The
closed form can raise, in Python evaluation order: `S / K` raises
`ZeroDivisionError` when `K = 0`; `log` of a non-positive argument raises
`ValueError`; the division by `sigma * sqrt(T)` raises `ZeroDivisionError`
when that product is zero.  The guards below reproduce exactly those cases. -/

/-- `d1` of the Black–Scholes formula (source lines 29 and 39). -/
noncomputable def bsD1 (S K r sigma T : ℝ) : ℝ :=
  (Real.log (S / K) + (r + 0.5 * sigma ^ 2) * T) / (sigma * Real.sqrt T)

/-- `d2 = d1 - sigma * sqrt(T)` (source lines 30 and 40). -/
noncomputable def bsD2 (S K r sigma T : ℝ) : ℝ :=
  bsD1 S K r sigma T - sigma * Real.sqrt T

/-- The value returned by `call_value` on the `T > 0` path (source line 31). -/
noncomputable def bsCallPrice (S K r sigma T : ℝ) : ℝ :=
  S * phi (bsD1 S K r sigma T) -
    K * Real.exp (-r * T) * phi (bsD2 S K r sigma T)

/-- The value returned by `put_value` on the `T > 0` path (source line 41). -/
noncomputable def bsPutPrice (S K r sigma T : ℝ) : ℝ :=
  K * Real.exp (-r * T) * phi (-bsD2 S K r sigma T) -
    S * phi (-bsD1 S K r sigma T)

/-- `call_value` (source lines 23–31). -/
noncomputable def call_value (S K r sigma T : ℝ) : PyResult ℝ :=
  if T ≤ 0 then .ok (max 0 (S - K))
  else if K = 0 then .exn "ZeroDivisionError"
  else if S / K ≤ 0 then .exn "ValueError"
  else if sigma * Real.sqrt T = 0 then .exn "ZeroDivisionError"
  else .ok (bsCallPrice S K r sigma T)

/-- `put_value` (source lines 33–41). -/
noncomputable def put_value (S K r sigma T : ℝ) : PyResult ℝ :=
  if T ≤ 0 then .ok (max 0 (K - S))
  else if K = 0 then .exn "ZeroDivisionError"
  else if S / K ≤ 0 then .exn "ValueError"
  else if sigma * Real.sqrt T = 0 then .exn "ZeroDivisionError"
  else .ok (bsPutPrice S K r sigma T)

/-! ## Analytic facts about the standard normal distribution -/

theorem stdNormalPDF_nonneg (x : ℝ) : 0 ≤ stdNormalPDF x := by
  unfold stdNormalPDF
  positivity

theorem stdNormalPDF_neg (x : ℝ) : stdNormalPDF (-x) = stdNormalPDF x := by
  simp [stdNormalPDF, neg_sq]

theorem continuous_stdNormalPDF : Continuous stdNormalPDF := by
  unfold stdNormalPDF
  fun_prop

theorem integrable_stdNormalPDF : Integrable stdNormalPDF := by
  have h : Integrable (fun x : ℝ => Real.exp (-(1 / 2 : ℝ) * x ^ 2)) :=
    integrable_exp_neg_mul_sq (by norm_num)
  have h2 := h.const_mul (Real.sqrt (2 * Real.pi))⁻¹
  have he : ∀ x : ℝ, -(1 / 2 : ℝ) * x ^ 2 = -x ^ 2 / 2 := fun x => by ring
  simp only [he] at h2
  exact h2

theorem integral_stdNormalPDF : ∫ x, stdNormalPDF x = 1 := by
  have h : ∫ x : ℝ, Real.exp (-(1 / 2 : ℝ) * x ^ 2) = Real.sqrt (Real.pi / (1 / 2)) :=
    integral_gaussian (1 / 2)
  have he : ∀ x : ℝ, stdNormalPDF x
      = (Real.sqrt (2 * Real.pi))⁻¹ * Real.exp (-(1 / 2 : ℝ) * x ^ 2) := by
    intro x
    unfold stdNormalPDF
    rw [show -(1 / 2 : ℝ) * x ^ 2 = -x ^ 2 / 2 by ring]
  simp only [he]
  rw [MeasureTheory.integral_mul_left, h]
  have hpi : Real.pi / (1 / 2) = 2 * Real.pi := by ring
  rw [hpi]
  exact inv_mul_cancel₀ (Real.sqrt_ne_zero'.mpr (by positivity))

theorem phi_neg_eq (x : ℝ) : phi (-x) = ∫ t in Ioi x, stdNormalPDF t := by
  have h := integral_comp_neg_Iic (-x) stdNormalPDF
  simp only [stdNormalPDF_neg, neg_neg] at h
  unfold phi
  exact h

theorem phi_add_phi_neg (x : ℝ) : phi x + phi (-x) = 1 := by
  rw [phi_neg_eq]
  unfold phi
  rw [intervalIntegral.integral_Iic_add_Ioi integrable_stdNormalPDF.integrableOn
    integrable_stdNormalPDF.integrableOn, integral_stdNormalPDF]

theorem phi_nonneg (x : ℝ) : 0 ≤ phi x :=
  setIntegral_nonneg measurableSet_Iic fun t _ => stdNormalPDF_nonneg t

theorem phi_le_one (x : ℝ) : phi x ≤ 1 := by
  have h := phi_add_phi_neg x
  have h2 := phi_nonneg (-x)
  linarith

theorem hasDerivAt_phi (x : ℝ) : HasDerivAt phi (stdNormalPDF x) x := by
  have hF : HasDerivAt (fun u => ∫ t in (0 : ℝ)..u, stdNormalPDF t) (stdNormalPDF x) x :=
    intervalIntegral.integral_hasDerivAt_right
      integrable_stdNormalPDF.intervalIntegrable
      continuous_stdNormalPDF.stronglyMeasurable.stronglyMeasurableAtFilter
      continuous_stdNormalPDF.continuousAt
  have hfun : phi = fun u => phi 0 + ∫ t in (0 : ℝ)..u, stdNormalPDF t := by
    funext u
    have h0 : IntegrableOn stdNormalPDF (Iic (0 : ℝ)) := integrable_stdNormalPDF.integrableOn
    have hu : IntegrableOn stdNormalPDF (Iic u) := integrable_stdNormalPDF.integrableOn
    have hsub := intervalIntegral.integral_Iic_sub_Iic h0 hu
    unfold phi
    linarith [hsub]
  rw [hfun]
  simpa using (hasDerivAt_const x (phi 0)).add hF

/-! ## Put–call parity of the closed forms -/

theorem bs_parity (S K r sigma T : ℝ) :
    bsCallPrice S K r sigma T - bsPutPrice S K r sigma T = S - K * Real.exp (-r * T) := by
  have h1 := phi_add_phi_neg (bsD1 S K r sigma T)
  have h2 := phi_add_phi_neg (bsD2 S K r sigma T)
  unfold bsCallPrice bsPutPrice
  linear_combination S * h1 - K * Real.exp (-r * T) * h2

/-- On the valid domain the guards of `call_value`/`put_value` all fall
through and the closed forms are returned. -/
theorem call_put_guard (S K r sigma T : ℝ) (hS : 0 < S) (hK : 0 < K)
    (hsig : 0 < sigma) (hT : 0 < T) :
    call_value S K r sigma T = .ok (bsCallPrice S K r sigma T) ∧
    put_value S K r sigma T = .ok (bsPutPrice S K r sigma T) := by
  have h1 : ¬T ≤ 0 := not_le.mpr hT
  have h2 : K ≠ 0 := ne_of_gt hK
  have h3 : ¬S / K ≤ 0 := not_le.mpr (div_pos hS hK)
  have h4 : sigma * Real.sqrt T ≠ 0 :=
    ne_of_gt (mul_pos hsig (Real.sqrt_pos.mpr hT))
  constructor <;> simp [call_value, put_value, h1, h2, h3, h4]

/-! ## Claim C5 -/

/-- C5: for all valid inputs with spot, strike, vol and T positive, the call
value minus the put value equals `spot - strike * exp (-rate * T)`
(put–call parity), in exact real arithmetic. -/
theorem C5_put_call_parity (S K r sigma T : ℝ) (hS : 0 < S) (hK : 0 < K)
    (hsig : 0 < sigma) (hT : 0 < T) :
    ∃ c p, call_value S K r sigma T = .ok c ∧ put_value S K r sigma T = .ok p ∧
      c - p = S - K * Real.exp (-r * T) :=
  ⟨bsCallPrice S K r sigma T, bsPutPrice S K r sigma T,
    (call_put_guard S K r sigma T hS hK hsig hT).1,
    (call_put_guard S K r sigma T hS hK hsig hT).2,
    bs_parity S K r sigma T⟩

/-- Witness for C5 at `S = 105`, `K = 100`, `r = 0.05`, `sigma = 0.25`, `T = 1`. -/
theorem C5_witness :
    ((0 : ℝ) < 105 ∧ (0 : ℝ) < 100 ∧ (0 : ℝ) < 0.25 ∧ (0 : ℝ) < 1) ∧
      (∃ c p, call_value 105 100 0.05 0.25 1 = .ok c ∧
        put_value 105 100 0.05 0.25 1 = .ok p ∧
        c - p = 105 - 100 * Real.exp (-0.05 * 1)) :=
  ⟨⟨by norm_num, by norm_num, by norm_num, by norm_num⟩,
    C5_put_call_parity 105 100 0.05 0.25 1 (by norm_num) (by norm_num)
      (by norm_num) (by norm_num)⟩

/-! ## Monotonicity of the closed forms in the spot price -/

theorem hasDerivAt_bsD1 (K r sigma T : ℝ) (hK : 0 < K) (hsig : 0 < sigma) (hT : 0 < T)
    (S : ℝ) (hS : 0 < S) :
    HasDerivAt (fun z => bsD1 z K r sigma T) (1 / (S * (sigma * Real.sqrt T))) S := by
  have hK0 : K ≠ 0 := ne_of_gt hK
  have hS0 : S ≠ 0 := ne_of_gt hS
  have hv : sigma * Real.sqrt T ≠ 0 := ne_of_gt (mul_pos hsig (Real.sqrt_pos.mpr hT))
  have hSK : S / K ≠ 0 := ne_of_gt (div_pos hS hK)
  have hdiv : HasDerivAt (fun z : ℝ => z / K) (1 / K) S := by
    simpa using (hasDerivAt_id S).div_const K
  have hlog : HasDerivAt (fun z : ℝ => Real.log (z / K)) ((S / K)⁻¹ * (1 / K)) S :=
    (Real.hasDerivAt_log hSK).comp S hdiv
  have h1 := (hlog.add_const ((r + 0.5 * sigma ^ 2) * T)).div_const (sigma * Real.sqrt T)
  have heq : (S / K)⁻¹ * (1 / K) / (sigma * Real.sqrt T)
      = 1 / (S * (sigma * Real.sqrt T)) := by
    field_simp
    ring
  rw [heq] at h1
  unfold bsD1
  exact h1

theorem bs_pdf_cancel (S K r sigma T : ℝ) (hS : 0 < S) (hK : 0 < K)
    (hsig : 0 < sigma) (hT : 0 < T) :
    S * stdNormalPDF (bsD1 S K r sigma T)
      = K * Real.exp (-r * T) * stdNormalPDF (bsD2 S K r sigma T) := by
  have hK0 : K ≠ 0 := ne_of_gt hK
  have hv : sigma * Real.sqrt T ≠ 0 := ne_of_gt (mul_pos hsig (Real.sqrt_pos.mpr hT))
  have hd1v : bsD1 S K r sigma T * (sigma * Real.sqrt T)
      = Real.log (S / K) + (r + 0.5 * sigma ^ 2) * T := by
    unfold bsD1
    field_simp
  have hv2 : (sigma * Real.sqrt T) ^ 2 = sigma ^ 2 * T := by
    rw [mul_pow, Real.sq_sqrt hT.le]
  have hexp : -bsD2 S K r sigma T ^ 2 / 2
      = -bsD1 S K r sigma T ^ 2 / 2 + (Real.log (S / K) + r * T) := by
    unfold bsD2
    linear_combination hd1v - (1 / 2) * hv2
  unfold stdNormalPDF
  rw [hexp, Real.exp_add, Real.exp_add, Real.exp_log (div_pos hS hK)]
  have hE : Real.exp (-r * T) * Real.exp (r * T) = 1 := by
    rw [← Real.exp_add]
    norm_num
  have hKdiv : K * (S / K) = S := by field_simp
  linear_combination (-((Real.sqrt (2 * Real.pi))⁻¹ *
      Real.exp (-bsD1 S K r sigma T ^ 2 / 2) * (K * (S / K)))) * hE +
    (-((Real.sqrt (2 * Real.pi))⁻¹ *
      Real.exp (-bsD1 S K r sigma T ^ 2 / 2))) * hKdiv

theorem hasDerivAt_bsCall (K r sigma T : ℝ) (hK : 0 < K) (hsig : 0 < sigma) (hT : 0 < T)
    (S : ℝ) (hS : 0 < S) :
    HasDerivAt (fun z => bsCallPrice z K r sigma T) (phi (bsD1 S K r sigma T)) S := by
  have hd1 := hasDerivAt_bsD1 K r sigma T hK hsig hT S hS
  have hphi1 : HasDerivAt (fun z => phi (bsD1 z K r sigma T))
      (stdNormalPDF (bsD1 S K r sigma T) * (1 / (S * (sigma * Real.sqrt T)))) S :=
    (hasDerivAt_phi (bsD1 S K r sigma T)).comp S hd1
  have hd2 : HasDerivAt (fun z => bsD2 z K r sigma T) (1 / (S * (sigma * Real.sqrt T))) S := by
    unfold bsD2
    simpa using hd1.sub_const (sigma * Real.sqrt T)
  have hphi2 : HasDerivAt (fun z => phi (bsD2 z K r sigma T))
      (stdNormalPDF (bsD2 S K r sigma T) * (1 / (S * (sigma * Real.sqrt T)))) S :=
    (hasDerivAt_phi (bsD2 S K r sigma T)).comp S hd2
  have hterm1 : HasDerivAt (fun z => z * phi (bsD1 z K r sigma T))
      (1 * phi (bsD1 S K r sigma T) +
        S * (stdNormalPDF (bsD1 S K r sigma T) * (1 / (S * (sigma * Real.sqrt T))))) S :=
    (hasDerivAt_id S).mul hphi1
  have hterm2 : HasDerivAt
      (fun z => K * Real.exp (-r * T) * phi (bsD2 z K r sigma T))
      (K * Real.exp (-r * T) *
        (stdNormalPDF (bsD2 S K r sigma T) * (1 / (S * (sigma * Real.sqrt T))))) S :=
    hphi2.const_mul (K * Real.exp (-r * T))
  have hcancel := bs_pdf_cancel S K r sigma T hS hK hsig hT
  have hsum := hterm1.sub hterm2
  unfold bsCallPrice
  convert hsum using 1
  linear_combination (-(1 / (S * (sigma * Real.sqrt T)))) * hcancel

theorem bsCall_monotoneOn (K r sigma T : ℝ) (hK : 0 < K) (hsig : 0 < sigma) (hT : 0 < T) :
    MonotoneOn (fun z => bsCallPrice z K r sigma T) (Ioi 0) := by
  have hder : ∀ S ∈ Ioi (0 : ℝ),
      HasDerivAt (fun z => bsCallPrice z K r sigma T) (phi (bsD1 S K r sigma T)) S :=
    fun S hS => hasDerivAt_bsCall K r sigma T hK hsig hT S hS
  apply monotoneOn_of_deriv_nonneg (convex_Ioi (0 : ℝ))
  · exact fun S hS => ((hder S hS).continuousAt).continuousWithinAt
  · intro S hS
    rw [interior_Ioi] at hS
    exact ((hder S hS).differentiableAt).differentiableWithinAt
  · intro S hS
    rw [interior_Ioi] at hS
    rw [(hder S hS).deriv]
    exact phi_nonneg _

theorem bsPut_eq (S K r sigma T : ℝ) :
    bsPutPrice S K r sigma T = bsCallPrice S K r sigma T - S + K * Real.exp (-r * T) := by
  linear_combination (-1 : ℝ) * bs_parity S K r sigma T

theorem hasDerivAt_bsPut (K r sigma T : ℝ) (hK : 0 < K) (hsig : 0 < sigma) (hT : 0 < T)
    (S : ℝ) (hS : 0 < S) :
    HasDerivAt (fun z => bsPutPrice z K r sigma T) (phi (bsD1 S K r sigma T) - 1) S := by
  have hc := hasDerivAt_bsCall K r sigma T hK hsig hT S hS
  have h := (hc.sub (hasDerivAt_id S)).add_const (K * Real.exp (-r * T))
  have hfun : (fun z => bsCallPrice z K r sigma T - z + K * Real.exp (-r * T))
      = fun z => bsPutPrice z K r sigma T := by
    funext z
    rw [bsPut_eq]
  rw [← hfun]
  exact h

theorem bsPut_antitoneOn (K r sigma T : ℝ) (hK : 0 < K) (hsig : 0 < sigma) (hT : 0 < T) :
    AntitoneOn (fun z => bsPutPrice z K r sigma T) (Ioi 0) := by
  have hder : ∀ S ∈ Ioi (0 : ℝ),
      HasDerivAt (fun z => bsPutPrice z K r sigma T) (phi (bsD1 S K r sigma T) - 1) S :=
    fun S hS => hasDerivAt_bsPut K r sigma T hK hsig hT S hS
  apply antitoneOn_of_deriv_nonpos (convex_Ioi (0 : ℝ))
  · exact fun S hS => ((hder S hS).continuousAt).continuousWithinAt
  · intro S hS
    rw [interior_Ioi] at hS
    exact ((hder S hS).differentiableAt).differentiableWithinAt
  · intro S hS
    rw [interior_Ioi] at hS
    rw [(hder S hS).deriv]
    exact sub_nonpos.mpr (phi_le_one _)

/-! ## Claim C6 -/

/-- C6: holding strike, rate, vol and T fixed, the call pricing function is
monotonically non-decreasing in spot and the put pricing function is
monotonically non-increasing in spot, over all spots in the valid domain. -/
theorem C6_monotone_in_spot (K r sigma T S1 S2 : ℝ) (hK : 0 < K) (hsig : 0 < sigma)
    (hS1 : 0 < S1) (h12 : S1 ≤ S2) :
    ∃ c1 c2 p1 p2,
      call_value S1 K r sigma T = .ok c1 ∧ call_value S2 K r sigma T = .ok c2 ∧
      put_value S1 K r sigma T = .ok p1 ∧ put_value S2 K r sigma T = .ok p2 ∧
      c1 ≤ c2 ∧ p2 ≤ p1 := by
  have hS2 : 0 < S2 := lt_of_lt_of_le hS1 h12
  by_cases hT : T ≤ 0
  · refine ⟨max 0 (S1 - K), max 0 (S2 - K), max 0 (K - S1), max 0 (K - S2),
      ?_, ?_, ?_, ?_, ?_, ?_⟩
    · simp [call_value, hT]
    · simp [call_value, hT]
    · simp [put_value, hT]
    · simp [put_value, hT]
    · exact max_le_max le_rfl (by linarith)
    · exact max_le_max le_rfl (by linarith)
  · push_neg at hT
    refine ⟨bsCallPrice S1 K r sigma T, bsCallPrice S2 K r sigma T,
      bsPutPrice S1 K r sigma T, bsPutPrice S2 K r sigma T,
      (call_put_guard S1 K r sigma T hS1 hK hsig hT).1,
      (call_put_guard S2 K r sigma T hS2 hK hsig hT).1,
      (call_put_guard S1 K r sigma T hS1 hK hsig hT).2,
      (call_put_guard S2 K r sigma T hS2 hK hsig hT).2,
      bsCall_monotoneOn K r sigma T hK hsig hT (mem_Ioi.mpr hS1) (mem_Ioi.mpr hS2) h12,
      bsPut_antitoneOn K r sigma T hK hsig hT (mem_Ioi.mpr hS1) (mem_Ioi.mpr hS2) h12⟩

/-- Witness for C6 at `K = 100`, `r = 0.05`, `sigma = 0.25`, `T = 1`,
`S1 = 100`, `S2 = 110`. -/
theorem C6_witness :
    ((0 : ℝ) < 100 ∧ (0 : ℝ) < 0.25 ∧ (0 : ℝ) < 100 ∧ (100 : ℝ) ≤ 110) ∧
      (∃ c1 c2 p1 p2,
        call_value 100 100 0.05 0.25 1 = .ok c1 ∧
        call_value 110 100 0.05 0.25 1 = .ok c2 ∧
        put_value 100 100 0.05 0.25 1 = .ok p1 ∧
        put_value 110 100 0.05 0.25 1 = .ok p2 ∧
        c1 ≤ c2 ∧ p2 ≤ p1) :=
  ⟨⟨by norm_num, by norm_num, by norm_num, by norm_num⟩,
    C6_monotone_in_spot 100 0.05 0.25 1 100 110 (by norm_num) (by norm_num)
      (by norm_num) (by norm_num)⟩

/-! ## Claim C4 -/

/-- C4: for every spot, strike, rate and vol, when `timeToExpiryYears ≤ 0`
the pricing functions return exactly the intrinsic value:
`max 0 (spot - strike)` for a call and `max 0 (strike - spot)` for a put. -/
theorem C4_intrinsic_value_at_expiry (S K r sigma T : ℝ) (hT : T ≤ 0) :
    call_value S K r sigma T = .ok (max 0 (S - K)) ∧
    put_value S K r sigma T = .ok (max 0 (K - S)) := by
  constructor <;> simp [call_value, put_value, hT]

/-! ## Claim C1

The source pricing functions perform no input validation: with `T > 0` a
non-positive `log` argument raises `ValueError` and a zero divisor raises
`ZeroDivisionError`, while a negative `sigma` (with `S/K > 0`) yields a
numeric result with no error at all.  The exception set is characterised
exactly below. -/

theorem call_value_exn_iff (S K r sigma T : ℝ) (hT : 0 < T) :
    (∃ e, call_value S K r sigma T = .exn e) ↔ (K = 0 ∨ S / K ≤ 0 ∨ sigma = 0) := by
  have hT' : ¬T ≤ 0 := not_le.mpr hT
  have hsq : Real.sqrt T ≠ 0 := ne_of_gt (Real.sqrt_pos.mpr hT)
  have hmul : sigma * Real.sqrt T = 0 ↔ sigma = 0 := by
    simp [mul_eq_zero, hsq]
  unfold call_value
  rw [if_neg hT']
  by_cases hK : K = 0
  · simp [hK]
  · rw [if_neg hK]
    by_cases hSK : S / K ≤ 0
    · simp [hSK, hK]
    · rw [if_neg hSK]
      by_cases hs : sigma = 0
      · rw [if_pos (hmul.mpr hs)]
        simp [hs]
      · rw [if_neg fun h => hs (hmul.mp h)]
        simp [hK, hSK, hs]

theorem put_value_exn_iff (S K r sigma T : ℝ) (hT : 0 < T) :
    (∃ e, put_value S K r sigma T = .exn e) ↔ (K = 0 ∨ S / K ≤ 0 ∨ sigma = 0) := by
  have hT' : ¬T ≤ 0 := not_le.mpr hT
  have hsq : Real.sqrt T ≠ 0 := ne_of_gt (Real.sqrt_pos.mpr hT)
  have hmul : sigma * Real.sqrt T = 0 ↔ sigma = 0 := by
    simp [mul_eq_zero, hsq]
  unfold put_value
  rw [if_neg hT']
  by_cases hK : K = 0
  · simp [hK]
  · rw [if_neg hK]
    by_cases hSK : S / K ≤ 0
    · simp [hSK, hK]
    · rw [if_neg hSK]
      by_cases hs : sigma = 0
      · rw [if_pos (hmul.mpr hs)]
        simp [hs]
      · rw [if_neg fun h => hs (hmul.mp h)]
        simp [hK, hSK, hs]

/-- C1 counterexample: at `spot = -1`, `strike = 100`, `T = 1` the pricing
functions raise `ValueError` (the model of `math.log` on a non-positive
argument) — they throw instead of reporting an error result. -/
theorem C1_counterexample :
    call_value (-1) 100 0.05 0.25 1 = .exn "ValueError" ∧
    put_value (-1) 100 0.05 0.25 1 = .exn "ValueError" := by
  constructor
  · unfold call_value
    rw [if_neg (by norm_num), if_neg (by norm_num), if_pos (by norm_num)]
  · unfold put_value
    rw [if_neg (by norm_num), if_neg (by norm_num), if_pos (by norm_num)]

/-- C1 amended: with `T > 0` the pricing functions raise an exception — they
never report an error result — exactly when `strike = 0`, `spot/strike ≤ 0`,
or `vol = 0`; in every other case (including `vol < 0` with positive spot
and strike) they return a number with no error. -/
theorem C1_amended_pricing_throws (S K r sigma T : ℝ) (hT : 0 < T) :
    ((∃ e, call_value S K r sigma T = .exn e) ↔ (K = 0 ∨ S / K ≤ 0 ∨ sigma = 0)) ∧
    ((∃ e, put_value S K r sigma T = .exn e) ↔ (K = 0 ∨ S / K ≤ 0 ∨ sigma = 0)) :=
  ⟨call_value_exn_iff S K r sigma T hT, put_value_exn_iff S K r sigma T hT⟩

/-- Witness for the amended C1 at `S = -1`, `K = 100`, `sigma = 0.25`, `T = 1`. -/
theorem C1_amended_witness :
    ((0 : ℝ) < 1) ∧
      (((∃ e, call_value (-1) 100 0.05 0.25 1 = .exn e) ↔
          ((100 : ℝ) = 0 ∨ (-1 : ℝ) / 100 ≤ 0 ∨ (0.25 : ℝ) = 0)) ∧
        ((∃ e, put_value (-1) 100 0.05 0.25 1 = .exn e) ↔
          ((100 : ℝ) = 0 ∨ (-1 : ℝ) / 100 ≤ 0 ∨ (0.25 : ℝ) = 0))) :=
  ⟨by norm_num, C1_amended_pricing_throws (-1) 100 0.05 0.25 1 (by norm_num)⟩

/-- Witness for C4 at `S = 105`, `K = 100`, `T = -0.5`. -/
theorem C4_witness :
    ((-0.5 : ℝ) ≤ 0) ∧
      (call_value 105 100 0.05 0.25 (-0.5) = .ok (max 0 (105 - 100)) ∧
        put_value 105 100 0.05 0.25 (-0.5) = .ok (max 0 (100 - 105))) :=
  ⟨by norm_num, C4_intrinsic_value_at_expiry 105 100 0.05 0.25 (-0.5) (by norm_num)⟩

/-! ## The valuation loop (source lines 120–280)

`stream_valuation` reads positions, then, for each cycle, values every
position in a `for` loop.  A position row can end in one of three handled
failure lines (`Invalid date`, `(No data)`, `Unknown type`), or in a
successful data line; the loop body has no `try`, so an exception raised by
the pricing call propagates out of the loop. -/

/-- One position as loaded from the CSV (source lines 170–178). -/
structure Position where
  ticker : String
  expiration_date : String
  option_type : String
  strike : ℝ
  move_str : String
  purchase_price : ℝ
  contracts : ℤ

/-- The row produced for one position: one of the three per-row failure
lines, or a successful valuation row with its displayed numeric fields
(source lines 224–277). -/
inductive Row where
  | invalidDate
  | noData
  | unknownType
  | valued (applied_price T bs_val_per_share total_val profit : ℝ)

/-- Per-cycle inputs of the row loop.  `parseT` models `dateparser.parse`
composed with the day count of line 229 (`none` = unparseable date, `some T`
= the resulting `timeToExpiryYears`); `priceOf` models the `ticker_data`
spot lookup of lines 182–186 and 232; `parseFloat` models Python
`float(move_str.replace("+", ""))` of line 240 (`none` = `ValueError`,
caught at line 241); `volOf` models the `get_implied_vol` result of
line 247, which never raises (see C9). -/
structure CycleEnv where
  parseT : String → Option ℝ
  priceOf : String → Option ℝ
  parseFloat : String → Option ℝ
  volOf : Position → ℝ

/-- The body of the `for` loop for one position (source lines 211–277).
Only the pricing call can raise here; its exception propagates through
`PyResult.map`. -/
noncomputable def valueRow (env : CycleEnv) (live_r : ℝ) (pos : Position) : PyResult Row :=
  match env.parseT pos.expiration_date with
  | none => .ok .invalidDate
  | some T =>
    match env.priceOf pos.ticker with
    | none => .ok .noData
    | some live_price =>
      let move_val := (env.parseFloat pos.move_str).getD 0
      let applied_price := live_price + move_val
      let sigma_used := env.volOf pos
      if pos.option_type = "call" then
        (call_value applied_price pos.strike live_r sigma_used T).map fun v =>
          let total_val := v * SHARES_PER_CONTRACT * (pos.contracts : ℝ)
          let purchase_cost := pos.purchase_price * SHARES_PER_CONTRACT * (pos.contracts : ℝ)
          .valued applied_price T v total_val (total_val - purchase_cost)
      else if pos.option_type = "put" then
        (put_value applied_price pos.strike live_r sigma_used T).map fun v =>
          let total_val := v * SHARES_PER_CONTRACT * (pos.contracts : ℝ)
          let purchase_cost := pos.purchase_price * SHARES_PER_CONTRACT * (pos.contracts : ℝ)
          .valued applied_price T v total_val (total_val - purchase_cost)
      else .ok .unknownType

/-- The `for` loop over the cycle's positions (source line 211): rows are
produced in order; an exception raised while computing one row aborts the
whole loop. -/
noncomputable def processRows (env : CycleEnv) (live_r : ℝ) :
    List Position → PyResult (List Row)
  | [] => .ok []
  | p :: ps =>
    match valueRow env live_r p with
    | .exn e => .exn e
    | .ok row => (processRows env live_r ps).map fun rows => row :: rows

/-! ## Claim C8 -/

/-- C8: for every successfully valued position,
`totalValue = valuePerShare * 100 * contracts`,
`purchaseCost = purchasePrice * 100 * contracts` and
`profit = totalValue - purchaseCost`, with 100 shares per contract. -/
theorem C8_value_and_profit_formulas (env : CycleEnv) (live_r : ℝ) (pos : Position)
    (a T v tot prof : ℝ)
    (h : valueRow env live_r pos = .ok (.valued a T v tot prof)) :
    tot = v * SHARES_PER_CONTRACT * (pos.contracts : ℝ) ∧
    prof = tot - pos.purchase_price * SHARES_PER_CONTRACT * (pos.contracts : ℝ) ∧
    SHARES_PER_CONTRACT = 100 := by
  unfold valueRow at h
  split at h
  · simp at h
  · split at h
    · simp at h
    · split at h
      · unfold PyResult.map at h
        dsimp only at h
        split at h
        · simp only [PyResult.ok.injEq, Row.valued.injEq] at h
          obtain ⟨-, -, hv, htot, hprof⟩ := h
          subst hv
          refine ⟨htot.symm, ?_, rfl⟩
          rw [htot] at hprof
          exact hprof.symm
        · simp at h
      · split at h
        · unfold PyResult.map at h
          dsimp only at h
          split at h
          · simp only [PyResult.ok.injEq, Row.valued.injEq] at h
            obtain ⟨-, -, hv, htot, hprof⟩ := h
            subst hv
            refine ⟨htot.symm, ?_, rfl⟩
            rw [htot] at hprof
            exact hprof.symm
          · simp at h
        · simp at h

/-- Concrete cycle environment used by the witnesses: the date parses to an
expired option (`T = -0.5`), ticker `ABC` has spot 105, the move column
parses to 0, implied volatility resolves to 0.25. -/
def testEnv : CycleEnv where
  parseT := fun s => if s = "2024-01-19" then some (-0.5) else none
  priceOf := fun t => if t = "ABC" then some 105 else none
  parseFloat := fun s => if s = "0" then some 0 else none
  volOf := fun _ => 0.25

/-- Concrete position used by the C8 witness. -/
def testPos : Position :=
  ⟨"ABC", "2024-01-19", "call", 100, "0", 5, 2⟩

/-- Witness for C8: the expired call on `ABC` values at `5` per share,
`totalValue = 1000`, `profit = 0`. -/
theorem C8_witness :
    valueRow testEnv 0.05 testPos = .ok (.valued 105 (-0.5) 5 1000 0) ∧
      ((1000 : ℝ) = 5 * SHARES_PER_CONTRACT * ((2 : ℤ) : ℝ) ∧
        (0 : ℝ) = 1000 - 5 * SHARES_PER_CONTRACT * ((2 : ℤ) : ℝ) ∧
        SHARES_PER_CONTRACT = 100) := by
  have h : valueRow testEnv 0.05 testPos = .ok (.valued 105 (-0.5) 5 1000 0) := by
    unfold valueRow testEnv testPos call_value
    norm_num [PyResult.map, SHARES_PER_CONTRACT]
  refine ⟨h, ?_⟩
  have := C8_value_and_profit_formulas testEnv 0.05 testPos 105 (-0.5) 5 1000 0 h
  simpa [testPos] using this

/-! ## Claim C2

The three anticipated per-row failures (invalid date, no spot data, unknown
option type) produce a failure row and the loop continues.  But the loop
body has no `try`: an exception raised by the pricing call on one row
propagates out of the `for` loop and aborts the whole cycle. -/

/-- A position whose row cannot make the pricing call raise: if the row
reaches the pricing step with `T > 0`, the strike is non-zero, the applied
price over the strike is positive, and the resolved volatility is
non-zero. -/
def RowSafe (env : CycleEnv) (pos : Position) : Prop :=
  ∀ T live_price, env.parseT pos.expiration_date = some T →
    env.priceOf pos.ticker = some live_price →
    0 < T →
    pos.strike ≠ 0 ∧
      ¬(live_price + (env.parseFloat pos.move_str).getD 0) / pos.strike ≤ 0 ∧
      env.volOf pos ≠ 0

/-- A safe row always yields a row (possibly a failure row) and never an
exception. -/
theorem valueRow_isOk (env : CycleEnv) (live_r : ℝ) (pos : Position)
    (hsafe : RowSafe env pos) : ∃ row, valueRow env live_r pos = .ok row := by
  unfold valueRow
  cases hp : env.parseT pos.expiration_date with
  | none => exact ⟨.invalidDate, rfl⟩
  | some T =>
    cases hq : env.priceOf pos.ticker with
    | none => exact ⟨.noData, rfl⟩
    | some live_price =>
      dsimp only
      by_cases hT0 : T ≤ 0
      · by_cases hct : pos.option_type = "call"
        · rw [if_pos hct]
          unfold call_value
          rw [if_pos hT0]
          exact ⟨_, rfl⟩
        · rw [if_neg hct]
          by_cases hpt : pos.option_type = "put"
          · rw [if_pos hpt]
            unfold put_value
            rw [if_pos hT0]
            exact ⟨_, rfl⟩
          · rw [if_neg hpt]
            exact ⟨.unknownType, rfl⟩
      · obtain ⟨hK0, hSK, hvol⟩ := hsafe T live_price hp hq (not_le.mp hT0)
        have hmul : env.volOf pos * Real.sqrt T ≠ 0 :=
          mul_ne_zero hvol (ne_of_gt (Real.sqrt_pos.mpr (not_le.mp hT0)))
        by_cases hct : pos.option_type = "call"
        · rw [if_pos hct]
          unfold call_value
          rw [if_neg hT0, if_neg hK0, if_neg hSK, if_neg hmul]
          exact ⟨_, rfl⟩
        · rw [if_neg hct]
          by_cases hpt : pos.option_type = "put"
          · rw [if_pos hpt]
            unfold put_value
            rw [if_neg hT0, if_neg hK0, if_neg hSK, if_neg hmul]
            exact ⟨_, rfl⟩
          · rw [if_neg hpt]
            exact ⟨.unknownType, rfl⟩

/-- When every row is safe, the cycle completes with one row per position:
the three handled failure kinds really are isolated. -/
theorem processRows_complete (env : CycleEnv) (live_r : ℝ) (ps : List Position)
    (hsafe : ∀ p ∈ ps, RowSafe env p) :
    ∃ rows, processRows env live_r ps = .ok rows ∧ rows.length = ps.length := by
  induction ps with
  | nil => exact ⟨[], rfl, rfl⟩
  | cons p ps ih =>
    obtain ⟨row, hrow⟩ := valueRow_isOk env live_r p (hsafe p (by simp))
    obtain ⟨rows, hrows, hlen⟩ := ih fun q hq => hsafe q (by simp [hq])
    refine ⟨row :: rows, ?_, by simp [hlen]⟩
    rw [processRows, hrow, hrows]
    rfl

/-- Position on `XYZ` whose simulated move drives the applied price to
`50 - 60 = -10 < 0` with `T > 0`: the pricing call raises. -/
def badPos : Position := ⟨"XYZ", "2024-06-21", "call", 100, "-60", 1, 1⟩

/-- A perfectly fine position, listed after `badPos` in the same cycle. -/
def otherPos : Position := ⟨"AAA", "2024-06-21", "put", 50, "0", 1, 1⟩

/-- Cycle inputs for the C2 failing run: dates parse to `T = 0.5`, `XYZ`
trades at 50, `AAA` at 60, the move column parses as written. -/
noncomputable def crashEnv : CycleEnv where
  parseT := fun _ => some 0.5
  priceOf := fun t => if t = "XYZ" then some 50 else some 60
  parseFloat := fun s => if s = "-60" then some (-60) else some 0
  volOf := fun _ => 0.25

/-- C2, behaviour of the code at the failing input: the first row's pricing
call raises `ValueError` (applied price `-10`), the exception propagates and
aborts the cycle, and the remaining position — which on its own values
fine — is never processed. -/
theorem C2_cycle_abort :
    processRows crashEnv 0.05 [badPos, otherPos] = .exn "ValueError" ∧
    (∃ row, valueRow crashEnv 0.05 otherPos = .ok row) := by
  constructor
  · have hcv : call_value (-10) 100 (1 / 20) (1 / 4) (1 / 2) = .exn "ValueError" := by
      unfold call_value
      rw [if_neg (by norm_num), if_neg (by norm_num), if_pos (by norm_num)]
    have hbad : valueRow crashEnv 0.05 badPos = .exn "ValueError" := by
      simp only [valueRow, crashEnv, badPos]
      norm_num [hcv, PyResult.map]
    rw [processRows, hbad]
  · apply valueRow_isOk
    intro T live_price hp hq hT
    unfold crashEnv otherPos at hp hq ⊢
    dsimp only at hp hq ⊢
    rw [if_neg (by decide)] at hq
    refine ⟨by norm_num, ?_, by norm_num⟩
    obtain rfl : (60 : ℝ) = live_price := by simpa using hq
    rw [if_neg (by decide)]
    norm_num

/-! ## Claim C3 and the risk-free rate resolver -/

/-- `get_risk_free_rate` (source lines 46–59).  The argument models the
provider lookup `info.get("regularMarketPrice", None)`, which can raise (the
whole body is inside `try`), return no value, or return the yield as a
percentage; a present percentage is divided by 100, everything else falls
back to `R_DEFAULT`. -/
noncomputable def get_risk_free_rate (resp : PyResult (Option ℝ)) : ℝ :=
  match resp with
  | .ok (some r_percent) => r_percent / 100
  | .ok none => R_DEFAULT
  | .exn _ => R_DEFAULT

/-- Events of the refresh loop at the granularity claim C3 speaks about. -/
inductive StreamEv where
  | rateFetch
  | cycleStart
  | rowValue (r_used : ℝ)

/-- `n` iterations of the `while True` loop (source line 146): each cycle
starts and values every position with the rate `r` it was handed
(`r_used = live_r`, source line 220). -/
def streamCycles (r : ℝ) (positions : List Position) : ℕ → List StreamEv
  | 0 => []
  | n + 1 =>
    (.cycleStart :: positions.map fun _ => .rowValue r) ++ streamCycles r positions n

/-- Rate events of `stream_valuation` (source lines 143–220) unrolled for
`n` cycles: `live_r = get_risk_free_rate()` runs once, before the loop
(source line 144), and is the rate given to every cycle. -/
noncomputable def streamRateTrace (resp : PyResult (Option ℝ)) (n : ℕ)
    (positions : List Position) : List StreamEv :=
  .rateFetch :: streamCycles (get_risk_free_rate resp) positions n

def isRateFetch : StreamEv → Bool
  | .rateFetch => true
  | _ => false

/-- The rates used to value rows, in order of use. -/
def ratesUsed (evs : List StreamEv) : List ℝ :=
  evs.filterMap fun ev =>
    match ev with
    | .rowValue r => some r
    | _ => none

theorem countP_isRateFetch_streamCycles (r : ℝ) (ps : List Position) (n : ℕ) :
    (streamCycles r ps n).countP isRateFetch = 0 := by
  induction n with
  | zero => rfl
  | succ k ih =>
    have h0 : (StreamEv.cycleStart :: ps.map fun _ => StreamEv.rowValue r).countP
        isRateFetch = 0 := by
      rw [List.countP_eq_zero]
      intro a ha
      rcases List.mem_cons.mp ha with h | h
      · subst h
        simp [isRateFetch]
      · obtain ⟨p, -, hp⟩ := List.mem_map.mp h
        simp [← hp, isRateFetch]
    rw [streamCycles, List.countP_append, h0, ih]

theorem ratesUsed_append (l1 l2 : List StreamEv) :
    ratesUsed (l1 ++ l2) = ratesUsed l1 ++ ratesUsed l2 := by
  unfold ratesUsed
  rw [List.filterMap_append]

theorem ratesUsed_cycle (r : ℝ) (ps : List Position) :
    ratesUsed (.cycleStart :: ps.map fun _ => .rowValue r)
      = List.replicate ps.length r := by
  unfold ratesUsed
  rw [List.filterMap_cons]
  dsimp only
  induction ps with
  | nil => rfl
  | cons q qs ih =>
    rw [List.map_cons, List.filterMap_cons]
    dsimp only
    rw [ih, List.length_cons, List.replicate_succ]

theorem ratesUsed_streamCycles (r : ℝ) (ps : List Position) (n : ℕ) :
    ratesUsed (streamCycles r ps n) = List.replicate (n * ps.length) r := by
  induction n with
  | zero => simp [streamCycles, ratesUsed]
  | succ k ih =>
    rw [streamCycles, ratesUsed_append, ratesUsed_cycle, ih, ← List.replicate_add]
    congr 1
    ring

/-- C3 counterexample: over two refresh cycles the rate resolver has run
exactly once in total — not once per cycle, which would give two fetch
events. -/
theorem C3_counterexample :
    (streamRateTrace (.ok (some 4)) 2 []).countP isRateFetch = 1 ∧ (1 : ℕ) ≠ 2 :=
  ⟨rfl, by decide⟩

/-- C3 amended: the shared risk-free rate is resolved once per run of
`stream_valuation`, before the first refresh cycle — not once per cycle —
and that single resolved value is the rate used by every position valued in
every cycle. -/
theorem C3_amended_rate_resolved_once (resp : PyResult (Option ℝ)) (n : ℕ)
    (positions : List Position) :
    (streamRateTrace resp n positions).countP isRateFetch = 1 ∧
    ratesUsed (streamRateTrace resp n positions)
      = List.replicate (n * positions.length) (get_risk_free_rate resp) := by
  constructor
  · rw [streamRateTrace, List.countP_cons,
      countP_isRateFetch_streamCycles]
    simp [isRateFetch]
  · rw [streamRateTrace]
    have h : ratesUsed (.rateFetch :: streamCycles (get_risk_free_rate resp) positions n)
        = ratesUsed (streamCycles (get_risk_free_rate resp) positions n) := by
      unfold ratesUsed
      rw [List.filterMap_cons]
    rw [h, ratesUsed_streamCycles]

/-! ## The volatility resolver (source lines 64–86) -/

/-- One row of the option-chain table: its strike and its (possibly
missing) `impliedVolatility` field. -/
structure ChainEntry where
  strike : ℝ
  impliedVolatility : Option ℝ

/-- Provider state consulted by `get_implied_vol`: the expiration list
`ticker.options`, and per expiration string the `option_chain` with its
`calls` and `puts` tables.  Either access can raise; the whole body of
`get_implied_vol` is inside one `try`. -/
structure VolProvider where
  options : PyResult (List String)
  chain : String → PyResult (List ChainEntry × List ChainEntry)

/-- `df.loc[df["diff"].idxmin()]`: the first entry whose
`|strike - target_strike|` is minimal (pandas `idxmin` returns the first
index attaining the minimum). -/
noncomputable def closestEntry (target : ℝ) (e : ChainEntry) (es : List ChainEntry) : ChainEntry :=
  es.foldl (fun best x => if |x.strike - target| < |best.strike - target| then x else best) e

theorem closestEntry_cons (target : ℝ) (e a : ChainEntry) (es : List ChainEntry) :
    closestEntry target e (a :: es)
      = closestEntry target (if |a.strike - target| < |e.strike - target| then a else e) es :=
  rfl

/-- The selected entry belongs to the chain and attains the minimal
distance to the target strike. -/
theorem closestEntry_spec (t : ℝ) (es : List ChainEntry) :
    ∀ e, closestEntry t e es ∈ e :: es ∧
      ∀ x ∈ e :: es, |(closestEntry t e es).strike - t| ≤ |x.strike - t| := by
  induction es with
  | nil =>
    intro e
    constructor
    · simp [closestEntry]
    · intro x hx
      simp only [closestEntry, List.foldl_nil]
      simp only [List.mem_singleton] at hx
      rw [hx]
  | cons a es ih =>
    intro e
    rw [closestEntry_cons]
    obtain ⟨hmem, hmin⟩ := ih (if |a.strike - t| < |e.strike - t| then a else e)
    constructor
    · by_cases hlt : |a.strike - t| < |e.strike - t|
      · rw [if_pos hlt] at hmem ⊢
        rcases List.mem_cons.mp hmem with h | h
        · simp [h]
        · simp [h]
      · rw [if_neg hlt] at hmem ⊢
        rcases List.mem_cons.mp hmem with h | h
        · simp [h]
        · simp [h]
    · intro x hx
      have hbase := hmin _ (List.mem_cons_self _ _)
      rcases List.mem_cons.mp hx with h | h
      · subst h
        by_cases hlt : |a.strike - t| < |x.strike - t|
        · rw [if_pos hlt] at hbase ⊢
          exact hbase.trans hlt.le
        · rw [if_neg hlt] at hbase ⊢
          exact hbase
      · rcases List.mem_cons.mp h with h2 | h2
        · subst h2
          by_cases hlt : |x.strike - t| < |e.strike - t|
          · rw [if_pos hlt] at hbase ⊢
            exact hbase
          · rw [if_neg hlt] at hbase ⊢
            exact hbase.trans (not_lt.mp hlt)
        · exact hmin x (List.mem_cons_of_mem _ h2)

/-- `get_implied_vol` (source lines 64–86): default when the expiration is
not listed, when the chain for the requested side is empty, when the
selected row's `impliedVolatility` is missing, or when the provider raises
anywhere; otherwise the implied volatility of the entry with strike closest
to `target_strike`. -/
noncomputable def get_implied_vol (p : VolProvider) (exp_str ot : String) (target_strike : ℝ) : ℝ :=
  match p.options with
  | .exn _ => SIGMA_DEFAULT
  | .ok opts =>
    if exp_str ∉ opts then SIGMA_DEFAULT
    else
      match p.chain exp_str with
      | .exn _ => SIGMA_DEFAULT
      | .ok (cs, ps) =>
        match (if ot = "call" then cs else ps) with
        | [] => SIGMA_DEFAULT
        | e :: es =>
          match (closestEntry target_strike e es).impliedVolatility with
          | none => SIGMA_DEFAULT
          | some v => v

/-- Concrete provider of the specification's example: one expiration, call
strikes 95, 100, 105 with implied volatilities 0.30, 0.18, 0.22. -/
def chainProvider : VolProvider where
  options := .ok ["2024-06-21"]
  chain := fun s =>
    if s = "2024-06-21" then
      .ok ([⟨95, some 0.30⟩, ⟨100, some 0.18⟩, ⟨105, some 0.22⟩], [])
    else .exn "KeyError"

/-! ## Claim C7 -/

/-- C7: with a matching expiration and a non-empty chain for the requested
side, `get_implied_vol` returns the implied volatility of the entry whose
strike attains the minimum `|strike - target|` (first such entry on a tie);
in the specification's example with strikes 95, 100, 105 and target 101 it
selects the strike-100 entry; on no matching expiration, empty chain, or
missing volatility field it returns the default `SIGMA_DEFAULT = 0.25`. -/
theorem C7_implied_vol_selection :
    (∀ (p : VolProvider) (exp_str ot : String) (t : ℝ) (opts : List String)
        (cs ps : List ChainEntry) (e : ChainEntry) (es : List ChainEntry),
        p.options = .ok opts → exp_str ∈ opts → p.chain exp_str = .ok (cs, ps) →
        (if ot = "call" then cs else ps) = e :: es →
        (closestEntry t e es ∈ e :: es ∧
          (∀ x ∈ e :: es, |(closestEntry t e es).strike - t| ≤ |x.strike - t|) ∧
          (∀ v, (closestEntry t e es).impliedVolatility = some v →
            get_implied_vol p exp_str ot t = v) ∧
          ((closestEntry t e es).impliedVolatility = none →
            get_implied_vol p exp_str ot t = SIGMA_DEFAULT))) ∧
    (∀ (p : VolProvider) (exp_str ot : String) (t : ℝ) (opts : List String),
        p.options = .ok opts → exp_str ∉ opts →
        get_implied_vol p exp_str ot t = SIGMA_DEFAULT) ∧
    (∀ (p : VolProvider) (exp_str ot : String) (t : ℝ) (opts : List String)
        (cs ps : List ChainEntry),
        p.options = .ok opts → exp_str ∈ opts → p.chain exp_str = .ok (cs, ps) →
        (if ot = "call" then cs else ps) = [] →
        get_implied_vol p exp_str ot t = SIGMA_DEFAULT) ∧
    get_implied_vol chainProvider "2024-06-21" "call" 101 = 0.18 ∧
    SIGMA_DEFAULT = 0.25 := by
  have hcore : ∀ (p : VolProvider) (exp_str ot : String) (t : ℝ) (opts : List String)
      (cs ps : List ChainEntry) (e : ChainEntry) (es : List ChainEntry),
      p.options = .ok opts → exp_str ∈ opts → p.chain exp_str = .ok (cs, ps) →
      (if ot = "call" then cs else ps) = e :: es →
      get_implied_vol p exp_str ot t
        = (match (closestEntry t e es).impliedVolatility with
            | none => SIGMA_DEFAULT
            | some v => v) := by
    intro p exp_str ot t opts cs ps e es hopts hmem hchain hcons
    obtain ⟨popts, pchain⟩ := p
    simp only at hopts hchain
    subst hopts
    unfold get_implied_vol
    dsimp only
    rw [if_neg (not_not_intro hmem), hchain]
    dsimp only
    rw [hcons]
  refine ⟨?_, ?_, ?_, ?_, rfl⟩
  · intro p exp_str ot t opts cs ps e es hopts hmem hchain hcons
    obtain ⟨hm, hmin⟩ := closestEntry_spec t es e
    refine ⟨hm, hmin, ?_, ?_⟩
    · intro v hv
      rw [hcore p exp_str ot t opts cs ps e es hopts hmem hchain hcons, hv]
    · intro hv
      rw [hcore p exp_str ot t opts cs ps e es hopts hmem hchain hcons, hv]
  · intro p exp_str ot t opts hopts hnmem
    obtain ⟨popts, pchain⟩ := p
    simp only at hopts
    subst hopts
    unfold get_implied_vol
    dsimp only
    rw [if_pos hnmem]
  · intro p exp_str ot t opts cs ps hopts hmem hchain hnil
    obtain ⟨popts, pchain⟩ := p
    simp only at hopts hchain
    subst hopts
    unfold get_implied_vol
    dsimp only
    rw [if_neg (not_not_intro hmem), hchain]
    dsimp only
    rw [hnil]
  · have h1 : closestEntry 101 ⟨95, some 0.30⟩ [⟨100, some 0.18⟩, ⟨105, some 0.22⟩]
        = ⟨100, some 0.18⟩ := by
      rw [closestEntry_cons]
      rw [if_pos (by
        dsimp only
        rw [abs_of_nonpos (by norm_num), abs_of_nonpos (by norm_num)]
        norm_num)]
      rw [closestEntry_cons]
      rw [if_neg (by
        dsimp only
        rw [abs_of_nonneg (by norm_num), abs_of_nonpos (by norm_num)]
        norm_num)]
      rfl
    unfold get_implied_vol chainProvider
    dsimp only
    rw [if_neg (by decide), if_pos rfl]
    dsimp only
    rw [if_pos rfl]
    dsimp only
    rw [h1]

/-- Witness for C7: the default on a non-matching expiration, and
membership of the selected entry in the example chain. -/
theorem C7_witness :
    get_implied_vol ⟨.ok ["2024-06-21"], chainProvider.chain⟩ "1999-01-01" "call" 101
      = SIGMA_DEFAULT ∧
    closestEntry 101 ⟨95, some 0.30⟩ [⟨100, some 0.18⟩, ⟨105, some 0.22⟩]
      ∈ (⟨95, some 0.30⟩ : ChainEntry) :: [⟨100, some 0.18⟩, ⟨105, some 0.22⟩] := by
  constructor
  · exact C7_implied_vol_selection.2.1 ⟨.ok ["2024-06-21"], chainProvider.chain⟩
      "1999-01-01" "call" 101 ["2024-06-21"] rfl (by decide)
  · exact (C7_implied_vol_selection.1 chainProvider "2024-06-21" "call" 101 ["2024-06-21"]
      [⟨95, some 0.30⟩, ⟨100, some 0.18⟩, ⟨105, some 0.22⟩] [] ⟨95, some 0.30⟩
      [⟨100, some 0.18⟩, ⟨105, some 0.22⟩] rfl (by simp) rfl rfl).1

/-! ## The price resolver (source lines 91–115) -/

/-- Provider state consulted by `get_live_price`: the `fast_info` lastPrice
lookup, the `info` regularMarketPrice lookup, and the `history` close (all
possibly raising; `.ok none` = field absent / empty frame). -/
structure PriceProvider where
  fastInfo : PyResult (Option ℝ)
  info : PyResult (Option ℝ)
  history : PyResult (Option ℝ)

/-- `get_live_price` (source lines 91–115).  First `try`: `fast_info`, then
`info`; a raise anywhere in it falls through to the second `try`, which
consults `history` and catches its own exceptions.  An absent price from
every source yields `None` — never a fallback number. -/
def get_live_price (p : PriceProvider) : Option ℝ :=
  let firstTry : Option ℝ :=
    match p.fastInfo with
    | .ok (some v) => some v
    | .ok none =>
      match p.info with
      | .ok (some v) => some v
      | _ => none
    | .exn _ => none
  match firstTry with
  | some v => some v
  | none =>
    match p.history with
    | .ok (some v) => some v
    | _ => none

/-! ## Claim C9 -/

/-- C9: no provider exception escapes a resolver boundary — on a raising
provider the rate resolver returns the default 0.05, the volatility
resolver returns the default 0.25 (whether `ticker.options` or
`option_chain` raises), and the price resolver returns the explicit
unavailable value `none` rather than a fallback number. -/
theorem C9_no_provider_exception_escapes :
    (∀ e : String, get_risk_free_rate (.exn e) = R_DEFAULT) ∧
    (∀ (e : String) (ch : String → PyResult (List ChainEntry × List ChainEntry))
        (exp_str ot : String) (t : ℝ),
        get_implied_vol ⟨.exn e, ch⟩ exp_str ot t = SIGMA_DEFAULT) ∧
    (∀ (e : String) (opts : List String) (exp_str ot : String) (t : ℝ),
        get_implied_vol ⟨.ok opts, fun _ => .exn e⟩ exp_str ot t = SIGMA_DEFAULT) ∧
    (∀ e1 e2 e3 : String, get_live_price ⟨.exn e1, .exn e2, .exn e3⟩ = none) ∧
    R_DEFAULT = 0.05 ∧ SIGMA_DEFAULT = 0.25 := by
  refine ⟨fun e => rfl, fun e ch exp_str ot t => rfl, ?_, fun e1 e2 e3 => rfl, rfl, rfl⟩
  intro e opts exp_str ot t
  unfold get_implied_vol
  dsimp only
  by_cases hmem : exp_str ∈ opts
  · rw [if_neg (not_not_intro hmem)]
  · rw [if_pos hmem]

/-! ## Claim C10 -/

/-- C10: whenever the provider returns a rate value `p` (present and
without raising), `get_risk_free_rate` returns `p / 100` — the provider's
percentage converted to a decimal fraction — and returns the default
`R_DEFAULT = 0.05` in every other case. -/
theorem C10_rate_percentage_conversion :
    (∀ pv : ℝ, get_risk_free_rate (.ok (some pv)) = pv / 100) ∧
    get_risk_free_rate (.ok none) = R_DEFAULT ∧
    (∀ e : String, get_risk_free_rate (.exn e) = R_DEFAULT) ∧
    R_DEFAULT = 0.05 :=
  ⟨fun _ => rfl, rfl, fun _ => rfl, rfl⟩

end OptionValue
